import Mathlib

/-!
# Verification of the ZoKrates uint-bound optimizer, SMT-LIB2 exporter and
# substitution table

Shallow embedding of:
* `zokrates_core/src/static_analysis/uint_optimizer.rs` (`UintOptimizer`):
  bound metadata, the expression bound propagator `fold_uint_expression`,
  and the statement canonicalizer `fold_statement`;
* `zokrates_ast/src/ir/smtlib2.rs` (`Statement::to_smtlib2` and friends);
* `src/substitution.rs` (`Substitution`).

Machine integers and field elements are embedded as `Nat`.  All bound
arithmetic in the source is exact (arbitrary-precision field elements used
as integers, guarded by checked operations), so no wrap-around modelling is
needed: under the pass's own assertion `bitwidth < (required_bits - 1) / 2`
every bound the code manipulates stays far below the field modulus.
Panics (`assert!`, `unwrap`, `expect`, `unreachable!`) are modelled as
`none` in an `Option` result.
-/

/-- Bound metadata attached to a resolved uint expression
(`UMetadata { max, should_reduce }` in the source; the field element `max`
is embedded as the exact natural number it stores). -/
structure UMetadata where
  max : Nat
  should_reduce : Option Bool
deriving DecidableEq

/-- Fuel-driven helper for the binary length of a natural number.
The fuel argument only makes the recursion structural; `n` itself is always
enough fuel. -/
def bits_aux : Nat → Nat → Nat
  | 0, _ => 0
  | fuel + 1, n => if n = 0 then 0 else bits_aux fuel (n / 2) + 1

/-- Number of bits needed to represent `n` (`BigUint::bits`): 0 for 0,
otherwise `log2 n + 1`. -/
def bits_needed (n : Nat) : Nat := bits_aux n n

/-- Modelled from the spec: `UMetadata::bitwidth` (defined in `zir/uint.rs`,
which is not among the provided sources) returns the number of bits needed
to represent the stored maximum — the spec's "number of bits needed to
represent `max`". -/
def UMetadata.bitwidth (m : UMetadata) : Nat := bits_needed m.max

/-- Modelled from the spec: the field safety ceiling
`C = 2^(required_bits/2 - 1)` of §4.2, parameterized by the field's
`required_bits` (254 for the Bn128 field used by the source's tests). -/
def ceiling (rb : Nat) : Nat := 2 ^ (rb / 2 - 1)

/-- Modelled from the spec: checked addition of exact bounds
(`Field::checked_add`, defined in `zokrates_field` which is not among the
provided sources): the exact sum when it stays under/at the ceiling,
"no result" otherwise. -/
def checked_add (rb a b : Nat) : Option Nat :=
  if a + b ≤ ceiling rb then some (a + b) else none

/-- Modelled from the spec: checked multiplication of exact bounds
(`Field::checked_mul`), same ceiling discipline as `checked_add`. -/
def checked_mul (rb a b : Nat) : Option Nat :=
  if a * b ≤ ceiling rb then some (a * b) else none

/-- ZIR field expressions are opaque atoms here: the optimizer only passes
them through (shift amounts, via the default folder), and no claim depends
on their structure. -/
structure FieldExpr where
  atom : String
deriving DecidableEq

/-- ZIR boolean expressions, same opaque treatment as `FieldExpr`
(conditions of `IfElse` are not folded by `fold_uint_expression`). -/
structure BoolExpr where
  atom : String
deriving DecidableEq

/-- The uint expression tree (`UExpression` with its `UExpressionInner`).
In the source a node is a struct `{ bitwidth, metadata, inner }` around a
tagged union; here the two common fields are fused into every constructor,
an isomorphic representation that keeps recursion structural. -/
inductive UExpr : Type where
  | Value (bitwidth : Nat) (metadata : Option UMetadata) (v : Nat)
  | Identifier (bitwidth : Nat) (metadata : Option UMetadata) (id : String)
  | Add (bitwidth : Nat) (metadata : Option UMetadata) (l r : UExpr)
  | Sub (bitwidth : Nat) (metadata : Option UMetadata) (l r : UExpr)
  | Xor (bitwidth : Nat) (metadata : Option UMetadata) (l r : UExpr)
  | And (bitwidth : Nat) (metadata : Option UMetadata) (l r : UExpr)
  | Or (bitwidth : Nat) (metadata : Option UMetadata) (l r : UExpr)
  | Mult (bitwidth : Nat) (metadata : Option UMetadata) (l r : UExpr)
  | Not (bitwidth : Nat) (metadata : Option UMetadata) (e : UExpr)
  | LeftShift (bitwidth : Nat) (metadata : Option UMetadata) (e : UExpr) (by_ : FieldExpr)
  | RightShift (bitwidth : Nat) (metadata : Option UMetadata) (e : UExpr) (by_ : FieldExpr)
  | IfElse (bitwidth : Nat) (metadata : Option UMetadata) (cond : BoolExpr) (cons alt : UExpr)
deriving DecidableEq

/-- The `bitwidth` field of a node. -/
def UExpr.bitwidth : UExpr → Nat
  | .Value bw _ _ => bw
  | .Identifier bw _ _ => bw
  | .Add bw _ _ _ => bw
  | .Sub bw _ _ _ => bw
  | .Xor bw _ _ _ => bw
  | .And bw _ _ _ => bw
  | .Or bw _ _ _ => bw
  | .Mult bw _ _ _ => bw
  | .Not bw _ _ => bw
  | .LeftShift bw _ _ _ => bw
  | .RightShift bw _ _ _ => bw
  | .IfElse bw _ _ _ _ => bw

/-- The `metadata` field of a node. -/
def UExpr.metadata : UExpr → Option UMetadata
  | .Value _ md _ => md
  | .Identifier _ md _ => md
  | .Add _ md _ _ => md
  | .Sub _ md _ _ => md
  | .Xor _ md _ _ => md
  | .And _ md _ _ => md
  | .Or _ md _ _ => md
  | .Mult _ md _ _ => md
  | .Not _ md _ => md
  | .LeftShift _ md _ _ => md
  | .RightShift _ md _ _ => md
  | .IfElse _ md _ _ _ => md

/-- The `.metadata(m)` builder method: set the metadata field to `Some m`. -/
def UExpr.withMetadata : UExpr → UMetadata → UExpr
  | .Value bw _ v, m => .Value bw (some m) v
  | .Identifier bw _ id, m => .Identifier bw (some m) id
  | .Add bw _ l r, m => .Add bw (some m) l r
  | .Sub bw _ l r, m => .Sub bw (some m) l r
  | .Xor bw _ l r, m => .Xor bw (some m) l r
  | .And bw _ l r, m => .And bw (some m) l r
  | .Or bw _ l r, m => .Or bw (some m) l r
  | .Mult bw _ l r, m => .Mult bw (some m) l r
  | .Not bw _ e, m => .Not bw (some m) e
  | .LeftShift bw _ e b, m => .LeftShift bw (some m) e b
  | .RightShift bw _ e b, m => .RightShift bw (some m) e b
  | .IfElse bw _ c x y, m => .IfElse bw (some m) c x y

/-- `UExpression::add`: rebuild an `Add` node, annotated (as in `zir/uint.rs`)
with the left operand's bitwidth, metadata not yet set. -/
def UExpr.add (l r : UExpr) : UExpr := .Add l.bitwidth none l r

/-- `UExpression::sub`. -/
def UExpr.sub (l r : UExpr) : UExpr := .Sub l.bitwidth none l r

/-- `UExpression::xor`. -/
def UExpr.xor (l r : UExpr) : UExpr := .Xor l.bitwidth none l r

/-- `UExpression::and`. -/
def UExpr.and (l r : UExpr) : UExpr := .And l.bitwidth none l r

/-- `UExpression::or`. -/
def UExpr.or (l r : UExpr) : UExpr := .Or l.bitwidth none l r

/-- `UExpression::mult`. -/
def UExpr.mult (l r : UExpr) : UExpr := .Mult l.bitwidth none l r

/-- `UExpression::left_shift`. -/
def UExpr.left_shift (e : UExpr) (b : FieldExpr) : UExpr :=
  .LeftShift e.bitwidth none e b

/-- `UExpression::right_shift`. -/
def UExpr.right_shift (e : UExpr) (b : FieldExpr) : UExpr :=
  .RightShift e.bitwidth none e b

/-- `UExpression::if_else`, annotated with the consequence's bitwidth. -/
def UExpr.if_else (c : BoolExpr) (x y : UExpr) : UExpr :=
  .IfElse x.bitwidth none c x y

/-- `force_reduce`: overwrite the pending-reduction flag with `Some(true)`;
the `e.metadata.unwrap()` panic is the `none` case. -/
def force_reduce (e : UExpr) : Option UExpr :=
  e.metadata.map fun m => e.withMetadata ⟨m.max, some true⟩

/-- `force_no_reduce`: overwrite the pending-reduction flag with
`Some(false)`. -/
def force_no_reduce (e : UExpr) : Option UExpr :=
  e.metadata.map fun m => e.withMetadata ⟨m.max, some false⟩

/-- The progressive escalation chain of the `Add` case (uint_optimizer.rs
lines 84-98), transcribed verbatim from the source's
`checked_add ... map ... unwrap_or_else` cascade: try the original maxima,
then replace the left maximum by `range_max`, then the right, and finally
fall back to `range_max + range_max`. -/
def addStep (rb range_max left_max right_max : Nat) : Bool × Bool × Nat :=
  match checked_add rb left_max right_max with
  | some max => (false, false, max)
  | none =>
    match checked_add rb range_max right_max with
    | some max => (true, false, max)
    | none =>
      match checked_add rb left_max range_max with
      | some max => (false, true, max)
      | none => (true, true, range_max + range_max)

/-- The progressive escalation chain of the `Sub` case (uint_optimizer.rs
lines 145-161): try `left_max + offset`, then `range_max + offset`, then
`left_max + target_offset`, and finally fall back to
`range_max + target_offset`. -/
def subStep (rb range_max offset target_offset left_max : Nat) : Bool × Bool × Nat :=
  match checked_add rb left_max offset with
  | some max => (false, false, max)
  | none =>
    match checked_add rb range_max offset with
    | some max => (true, false, max)
    | none =>
      match checked_add rb left_max target_offset with
      | some max => (false, true, max)
      | none => (true, true, range_max + target_offset)

/-- The progressive escalation chain of the `Mult` case (uint_optimizer.rs
lines 217-231), the multiplicative twin of `addStep` with fallback
`range_max * range_max`. -/
def multStep (rb range_max left_max right_max : Nat) : Bool × Bool × Nat :=
  match checked_mul rb left_max right_max with
  | some max => (false, false, max)
  | none =>
    match checked_mul rb range_max right_max with
    | some max => (true, false, max)
    | none =>
      match checked_mul rb left_max range_max with
      | some max => (false, true, max)
      | none => (true, true, range_max * range_max)

/-- ZIR types, as far as the optimizer's variable keys need them. -/
inductive ZirType : Type where
  | FieldElement
  | Boolean
  | Uint (w : Nat)
deriving DecidableEq

/-- A ZIR variable (`Variable { id, _type }`), the key of the optimizer's
`ids` table. -/
structure Variable where
  id : String
  ty : ZirType
deriving DecidableEq

/-- `Variable::uint(id, bitwidth)`. -/
def Variable.uint (id : String) (w : Nat) : Variable := ⟨id, .Uint w⟩

/-- The optimizer's variable bound table `ids : HashMap<ZirAssignee, UMetadata>`,
modelled as an association list: insertion prepends, lookup takes the first
match (observationally a hash map with overwriting insert). -/
abbrev Ids : Type := List (Variable × UMetadata)

/-- `HashMap::get` on the variable bound table. -/
def lookupId : Ids → Variable → Option UMetadata
  | [], _ => none
  | (k, m) :: rest, v => if k = v then some m else lookupId rest v

/-- The default folder on field expressions: our atoms pass through
unchanged. -/
def fold_field_expression (_rb : Nat) (_ids : Ids) (f : FieldExpr) : FieldExpr := f

/-- `fold_uint_expression` of `UintOptimizer`: memoized bound propagation.
`rb` is the field's `required_bits`.  A `none` result models a panic
(the width assertion, a missing identifier, or an `unwrap` on absent
metadata).  The final `if` models `assert!(res.metadata.is_some())`. -/
def fold_uint_expression (rb : Nat) (ids : Ids) (e : UExpr) : Option UExpr :=
  if e.metadata.isSome then some e
  else
    let range := e.bitwidth
    let range_max : Nat := 2 ^ range - 1
    if range < (rb - 1) / 2 then do
      let res ←
        match e with
        | .Value _ _ v => some ((UExpr.Value range none v).withMetadata ⟨v, some false⟩)
        | .Identifier _ _ id =>
          (lookupId ids (Variable.uint id range)).map
            fun m => UExpr.Identifier range (some m) id
        | .Add _ _ left right => do
          let left ← fold_uint_expression rb ids left
          let right ← fold_uint_expression rb ids right
          let lm ← left.metadata
          let rm ← right.metadata
          let srm := addStep rb range_max lm.max rm.max
          let left ← if srm.1 then force_reduce left else some left
          let right ← if srm.2.1 then force_reduce right else some right
          some ((UExpr.add left right).withMetadata ⟨srm.2.2, some false⟩)
        | .Sub _ _ left right => do
          let left ← fold_uint_expression rb ids left
          let right ← fold_uint_expression rb ids right
          let lm ← left.metadata
          let rm ← right.metadata
          let offset : Nat := 2 ^ Nat.max rm.bitwidth range
          let target_offset : Nat := 2 ^ range
          let srm := subStep rb range_max offset target_offset lm.max
          let left ← if srm.1 then force_reduce left else some left
          let right ← if srm.2.1 then force_reduce right else some right
          some ((UExpr.sub left right).withMetadata ⟨srm.2.2, some false⟩)
        | .Xor _ _ left right => do
          let left ← fold_uint_expression rb ids left
          let right ← fold_uint_expression rb ids right
          let left ← force_reduce left
          let right ← force_reduce right
          some ((UExpr.xor left right).withMetadata ⟨range_max, some false⟩)
        | .And _ _ left right => do
          let left ← fold_uint_expression rb ids left
          let right ← fold_uint_expression rb ids right
          let left ← force_reduce left
          let right ← force_reduce right
          some ((UExpr.and left right).withMetadata ⟨range_max, some false⟩)
        | .Or _ _ left right => do
          let left ← fold_uint_expression rb ids left
          let right ← fold_uint_expression rb ids right
          let left ← force_reduce left
          let right ← force_reduce right
          some ((UExpr.or left right).withMetadata ⟨range_max, some false⟩)
        | .Mult _ _ left right => do
          let left ← fold_uint_expression rb ids left
          let right ← fold_uint_expression rb ids right
          let lm ← left.metadata
          let rm ← right.metadata
          let srm := multStep rb range_max lm.max rm.max
          let left ← if srm.1 then force_reduce left else some left
          let right ← if srm.2.1 then force_reduce right else some right
          some ((UExpr.mult left right).withMetadata ⟨srm.2.2, some false⟩)
        | .Not _ _ e1 => do
          let e1 ← fold_uint_expression rb ids e1
          let e1 ← force_reduce e1
          some ((UExpr.Not range none e1).withMetadata ⟨range_max, some false⟩)
        | .LeftShift _ _ e1 b => do
          let e1 ← fold_uint_expression rb ids e1
          let e1 ← force_reduce e1
          some ((UExpr.left_shift e1 (fold_field_expression rb ids b)).withMetadata ⟨range_max, some true⟩)
        | .RightShift _ _ e1 b => do
          let e1 ← fold_uint_expression rb ids e1
          let e1 ← force_reduce e1
          some ((UExpr.right_shift e1 (fold_field_expression rb ids b)).withMetadata ⟨range_max, some false⟩)
        | .IfElse _ _ cond cons alt => do
          let cons ← fold_uint_expression rb ids cons
          let alt ← fold_uint_expression rb ids alt
          let cm ← cons.metadata
          let am ← alt.metadata
          some ((UExpr.if_else cond cons alt).withMetadata
            ⟨Nat.max cm.max am.max, some false⟩)
      if res.metadata.isSome then some res else none
    else none

/-- A ZIR expression (`ZirExpression`): boolean and field variants are the
opaque atoms, uint carries a full `UExpr`. -/
inductive ZirExpr : Type where
  | Boolean (b : BoolExpr)
  | FieldElement (f : FieldExpr)
  | Uint (u : UExpr)
deriving DecidableEq

/-- `Folder::fold_expression`: dispatch on the expression kind; only the
uint variant is rewritten by this pass (boolean and field expressions are
opaque atoms here). -/
def fold_expression (rb : Nat) (ids : Ids) : ZirExpr → Option ZirExpr
  | .Uint u => (fold_uint_expression rb ids u).map .Uint
  | e => some e

/-- A ZIR statement, restricted to the kinds `UintOptimizer::fold_statement`
handles explicitly.  `MultipleDefinition`'s function call is flattened to
the key's `id` string and its arguments (the return-type annotation plays
no role in the optimizer). -/
inductive ZirStatement : Type where
  | Definition (a : Variable) (e : ZirExpr)
  | Return (es : List ZirExpr)
  | MultipleDefinition (lhs : List Variable) (key : String) (args : List ZirExpr)
  | Condition (lhs rhs : ZirExpr)
deriving DecidableEq

/-- The closure mapped over a `Return` statement's expression list: fold
each uint expression and overwrite its flag with `Some(true)`; other
expressions go through `fold_expression`. -/
def foldReturnList (rb : Nat) (ids : Ids) : List ZirExpr → Option (List ZirExpr)
  | [] => some []
  | e :: rest => do
    let e2 ←
      match e with
      | .Uint u => do
        let u2 ← fold_uint_expression rb ids u
        let m ← u2.metadata
        some (ZirExpr.Uint (u2.withMetadata ⟨m.max, some true⟩))
      | e => fold_expression rb ids e
    let rest2 ← foldReturnList rb ids rest
    some (e2 :: rest2)

/-- `fold_statement` of `UintOptimizer`.  The mutable `self.ids` table is
threaded explicitly: the result pairs the updated table with the rewritten
statements.  `none` models a panic (an `unwrap`, the `assert_eq!` on the
builtin call's output arity, or a panic inside `fold_uint_expression`). -/
def fold_statement (rb : Nat) (ids : Ids) :
    ZirStatement → Option (Ids × List ZirStatement)
  | .Definition a e => do
    let e2 ← fold_expression rb ids e
    match e2 with
    | .Uint i => do
      let i2 ← force_no_reduce i
      let m ← i2.metadata
      some ((a, m) :: ids, [ZirStatement.Definition a (.Uint i2)])
    | e2 => some (ids, [ZirStatement.Definition a e2])
  | .Return es => do
    let es2 ← foldReturnList rb ids es
    some (ids, [ZirStatement.Return es2])
  | .MultipleDefinition lhs key args =>
    if key = "_U32_FROM_BITS" then
      match lhs with
      | [x] =>
        some ((x, ⟨2 ^ 32 - 1, some false⟩) :: ids,
          [ZirStatement.MultipleDefinition lhs key args])
      | _ => none
    else do
      let args2 ← args.mapM (fold_expression rb ids)
      some (ids, [ZirStatement.MultipleDefinition lhs key args2])
  | .Condition lhs rhs => do
    let l ← fold_expression rb ids lhs
    let r ← fold_expression rb ids rhs
    match l, r with
    | .Uint lu, .Uint ru => do
      let lm ← lu.metadata
      let rm ← ru.metadata
      some (ids,
        [ZirStatement.Condition
          (.Uint (lu.withMetadata ⟨lm.max, some true⟩))
          (.Uint (ru.withMetadata ⟨rm.max, some true⟩))])
    | l, r => some (ids, [ZirStatement.Condition l r])

/-- `BINARY_SEPARATOR` of `substitution.rs`. -/
def BINARY_SEPARATOR : String := "_b"

/-- Rust `str::split("_b")` over the character list: split at every
leftmost, non-overlapping occurrence of the two-character separator.
Always returns at least one (possibly empty) part. -/
def splitSep : List Char → List (List Char)
  | [] => [[]]
  | '_' :: 'b' :: rest => [] :: splitSep rest
  | c :: rest =>
    match splitSep rest with
    | [] => [[c]]
    | p :: ps => (c :: p) :: ps

/-- `Substitution::split_key`: the first `"_b"`-separated segment of the
key, and the second one when the separator occurs (`parts.nth(0)` twice on
the split iterator); all later segments are dropped. -/
def split_key (key : String) : String × Option String :=
  match splitSep key.data with
  | [] => ("", none)
  | p :: rest => (String.mk p, rest.head?.map String.mk)

/-- All `"_b"`-separated segments of a key, as strings (how Rust's full
split iterator would enumerate them); used to state properties of
`split_key`. -/
def keyParts (k : String) : List String := (splitSep k.data).map String.mk

/-- The `Substitution` table: its `HashMap<String, String>` is an
association list where insertion prepends and lookup takes the first match
(observationally a hash map with overwriting insert). -/
structure Substitution where
  hashmap : List (String × String)
deriving DecidableEq

/-- `HashMap::get` for the substitution table. -/
def hmGet : List (String × String) → String → Option String
  | [], _ => none
  | (k, v) :: rest, p => if k = p then some v else hmGet rest p

/-- `Substitution::new`. -/
def Substitution.new : Substitution := ⟨[]⟩

/-- `Substitution::insert`: store the element under the stripped key. -/
def Substitution.insert (s : Substitution) (key element : String) : Substitution :=
  ⟨((split_key key).1, element) :: s.hashmap⟩

/-- `Substitution::get`: strip the key; on a hit reattach the suffix
(value, separator, suffix) when one was present, else return the value
verbatim. -/
def Substitution.get (s : Substitution) (key : String) : Option String :=
  match split_key key with
  | (p, suf) =>
    match hmGet s.hashmap p with
    | some v =>
      match suf with
      | some suffix => some (v ++ BINARY_SEPARATOR ++ suffix)
      | none => some v
    | none => none

/-- `Substitution::contains_key`: presence of the stripped key only. -/
def Substitution.contains_key (s : Substitution) (key : String) : Bool :=
  (hmGet s.hashmap (split_key key).1).isSome

/-- An `ir::Variable` of the exporter, rendered as `|name|`; the concrete
display name is opaque for our purposes. -/
structure Vr where
  name : String
deriving DecidableEq

/-- A linear combination `LinComb(Vec<(Variable, T)>)`; coefficients are
embedded as the natural numbers their `to_biguint` rendering prints. -/
structure LinComb where
  terms : List (Vr × Nat)
deriving DecidableEq

/-- A quadratic combination `QuadComb { left, right }`. -/
structure QuadComb where
  left : LinComb
  right : LinComb
deriving DecidableEq

/-- The data of a `Directive` statement; its renderer ignores all of it, so
it is opaque here. -/
structure DirectiveData where
  tag : String
deriving DecidableEq

/-- The data of a `Log` statement; its renderer ignores all of it. -/
structure LogData where
  tag : String
deriving DecidableEq

/-- An IR `Statement` as matched by the SMT-LIB2 exporter: `Block`,
`Constraint` (with its optional runtime-error payload), `Directive`,
`Log`. -/
inductive IrStatement : Type where
  | Block (stmts : List IrStatement)
  | Constraint (quad : QuadComb) (lin : LinComb) (err : Option String)
  | Directive (d : DirectiveData)
  | Log (l : LogData)

/-- `format_prefix_op_smtlib2`. -/
def format_prefix_op (op a b : String) : String :=
  "(" ++ op ++ " " ++ a ++ " " ++ b ++ ")"

/-- `Variable`'s `SMTLib2` impl: `|{}|`. -/
def vr_to_smtlib2 (v : Vr) : String := "|" ++ v.name ++ "|"

/-- Modelled from the spec: `LinComb::is_zero` (defined in
`ir/expression.rs`, not among the provided sources) — the combination has
no terms.  Only the `Constraint` renderer consults it; no claim depends on
its exact definition. -/
def LinComb.is_zero (l : LinComb) : Bool := l.terms.isEmpty

/-- One rendered summand `(* |var| coeff)` of a linear combination. -/
def linTerm_to_smtlib2 (t : Vr × Nat) : String :=
  format_prefix_op "*" (vr_to_smtlib2 t.1) (toString t.2)

/-- `LinComb`'s `SMTLib2` impl. -/
def linComb_to_smtlib2 (l : LinComb) : String :=
  if l.is_zero then "0"
  else
    if l.terms.length > 1 then
      "(+" ++ String.join (l.terms.map fun t => " " ++ linTerm_to_smtlib2 t) ++ ")"
    else linTerm_to_smtlib2 (l.terms.headD (⟨""⟩, 0))

/-- `QuadComb`'s `SMTLib2` impl: `(* left right)`. -/
def quadComb_to_smtlib2 (q : QuadComb) : String :=
  format_prefix_op "*" (linComb_to_smtlib2 q.left) (linComb_to_smtlib2 q.right)

/-- `Directive`'s `SMTLib2` impl: empty text. -/
def directive_to_smtlib2 (_ : DirectiveData) : String := ""

/-- `Statement`'s `SMTLib2` impl.  The writer is modelled as the produced
text; `none` models the `unreachable!()` panic on `Block`. -/
def statement_to_smtlib2 : IrStatement → Option String
  | .Block _ => none
  | .Constraint quad lin _ =>
    some ("(= (mod " ++ quadComb_to_smtlib2 quad ++ " |~prime|) (mod "
      ++ linComb_to_smtlib2 lin ++ " |~prime|))")
  | .Directive d => some (directive_to_smtlib2 d)
  | .Log _ => some ""

/-- Specification-side: pick the first candidate of a list whose attempted
bound is `some`, returning its reduction flags and that bound; fall back to
the last resort when every attempt failed.  This is the spec's "try the
four combinations in this fixed order and stop at the first that fits". -/
def firstFit : List (Bool × Bool × Option Nat) → Bool × Bool × Nat → Bool × Bool × Nat
  | [], dflt => dflt
  | (bl, br, o) :: rest, dflt =>
    match o with
    | some max => (bl, br, max)
    | none => firstFit rest dflt

/-- Specification-side: the effect of a decided reduction flag on an
operand whose metadata is `m` — force-reduce it when the flag is set,
leave it untouched otherwise. -/
def applyReduce (flag : Bool) (m : UMetadata) (e : UExpr) : UExpr :=
  if flag then e.withMetadata ⟨m.max, some true⟩ else e

/-- Specification-side: the expression carries metadata whose
pending-reduction flag is resolved (`Some(true)` or `Some(false)`). -/
def flagResolved (e : UExpr) : Bool :=
  match e.metadata with
  | some m => m.should_reduce.isSome
  | none => false

/-- Specification-side: a uint expression carries the flag `Some(true)`
(non-uint expressions impose nothing). -/
def returnCanonical : ZirExpr → Bool
  | .Uint u =>
    match u.metadata with
    | some m => m.should_reduce = some true
    | none => false
  | _ => true

/-- Specification-side: every uint expression in a `Return` statement's
result list carries the flag `Some(true)`. -/
def stmtReturnCanonical : ZirStatement → Bool
  | .Return es => es.all returnCanonical
  | _ => true

/-- Specification-side: the three checked attempts of the `Add` escalation,
in claim order: reduce neither, reduce left only (left maximum replaced by
`R = 2^w - 1`), reduce right only. -/
def addCandidates (rb R a b : Nat) : List (Bool × Bool × Option Nat) :=
  [(false, false, checked_add rb a b),
   (true, false, checked_add rb R b),
   (false, true, checked_add rb a R)]

/-- Specification-side: the three checked attempts of the `Sub` escalation,
in claim order: reduce neither (`a + off`), reduce left only (`R + off`),
reduce right only (offset recomputed to the width-scaled `toff`). -/
def subCandidates (rb R off toff a : Nat) : List (Bool × Bool × Option Nat) :=
  [(false, false, checked_add rb a off),
   (true, false, checked_add rb R off),
   (false, true, checked_add rb a toff)]

/-- Specification-side: the three checked attempts of the `Mult`
escalation, in claim order. -/
def multCandidates (rb R a b : Nat) : List (Bool × Bool × Option Nat) :=
  [(false, false, checked_mul rb a b),
   (true, false, checked_mul rb R b),
   (false, true, checked_mul rb a R)]

/-! Per-constructor reduction lemmas for the node accessors and the
metadata builder, so that proofs can reduce them on constructor-headed
terms without unfolding them on abstract ones. -/

@[simp] theorem metadata_Value (bw : Nat) (md : Option UMetadata) (v : Nat) :
    (UExpr.Value bw md v).metadata = md := rfl

@[simp] theorem metadata_Identifier (bw : Nat) (md : Option UMetadata) (id : String) :
    (UExpr.Identifier bw md id).metadata = md := rfl

@[simp] theorem metadata_Add (bw : Nat) (md : Option UMetadata) (l r : UExpr) :
    (UExpr.Add bw md l r).metadata = md := rfl

@[simp] theorem metadata_Sub (bw : Nat) (md : Option UMetadata) (l r : UExpr) :
    (UExpr.Sub bw md l r).metadata = md := rfl

@[simp] theorem metadata_Xor (bw : Nat) (md : Option UMetadata) (l r : UExpr) :
    (UExpr.Xor bw md l r).metadata = md := rfl

@[simp] theorem metadata_And (bw : Nat) (md : Option UMetadata) (l r : UExpr) :
    (UExpr.And bw md l r).metadata = md := rfl

@[simp] theorem metadata_Or (bw : Nat) (md : Option UMetadata) (l r : UExpr) :
    (UExpr.Or bw md l r).metadata = md := rfl

@[simp] theorem metadata_Mult (bw : Nat) (md : Option UMetadata) (l r : UExpr) :
    (UExpr.Mult bw md l r).metadata = md := rfl

@[simp] theorem metadata_Not (bw : Nat) (md : Option UMetadata) (e : UExpr) :
    (UExpr.Not bw md e).metadata = md := rfl

@[simp] theorem metadata_LeftShift (bw : Nat) (md : Option UMetadata)
    (e : UExpr) (b : FieldExpr) : (UExpr.LeftShift bw md e b).metadata = md := rfl

@[simp] theorem metadata_RightShift (bw : Nat) (md : Option UMetadata)
    (e : UExpr) (b : FieldExpr) : (UExpr.RightShift bw md e b).metadata = md := rfl

@[simp] theorem metadata_IfElse (bw : Nat) (md : Option UMetadata)
    (c : BoolExpr) (x y : UExpr) : (UExpr.IfElse bw md c x y).metadata = md := rfl

@[simp] theorem bitwidth_Value (bw : Nat) (md : Option UMetadata) (v : Nat) :
    (UExpr.Value bw md v).bitwidth = bw := rfl

@[simp] theorem bitwidth_Identifier (bw : Nat) (md : Option UMetadata) (id : String) :
    (UExpr.Identifier bw md id).bitwidth = bw := rfl

@[simp] theorem bitwidth_Add (bw : Nat) (md : Option UMetadata) (l r : UExpr) :
    (UExpr.Add bw md l r).bitwidth = bw := rfl

@[simp] theorem bitwidth_Sub (bw : Nat) (md : Option UMetadata) (l r : UExpr) :
    (UExpr.Sub bw md l r).bitwidth = bw := rfl

@[simp] theorem bitwidth_Xor (bw : Nat) (md : Option UMetadata) (l r : UExpr) :
    (UExpr.Xor bw md l r).bitwidth = bw := rfl

@[simp] theorem bitwidth_And (bw : Nat) (md : Option UMetadata) (l r : UExpr) :
    (UExpr.And bw md l r).bitwidth = bw := rfl

@[simp] theorem bitwidth_Or (bw : Nat) (md : Option UMetadata) (l r : UExpr) :
    (UExpr.Or bw md l r).bitwidth = bw := rfl

@[simp] theorem bitwidth_Mult (bw : Nat) (md : Option UMetadata) (l r : UExpr) :
    (UExpr.Mult bw md l r).bitwidth = bw := rfl

@[simp] theorem bitwidth_Not (bw : Nat) (md : Option UMetadata) (e : UExpr) :
    (UExpr.Not bw md e).bitwidth = bw := rfl

@[simp] theorem bitwidth_LeftShift (bw : Nat) (md : Option UMetadata)
    (e : UExpr) (b : FieldExpr) : (UExpr.LeftShift bw md e b).bitwidth = bw := rfl

@[simp] theorem bitwidth_RightShift (bw : Nat) (md : Option UMetadata)
    (e : UExpr) (b : FieldExpr) : (UExpr.RightShift bw md e b).bitwidth = bw := rfl

@[simp] theorem bitwidth_IfElse (bw : Nat) (md : Option UMetadata)
    (c : BoolExpr) (x y : UExpr) : (UExpr.IfElse bw md c x y).bitwidth = bw := rfl

@[simp] theorem withMetadata_Value (bw : Nat) (md : Option UMetadata) (v : Nat)
    (m : UMetadata) : (UExpr.Value bw md v).withMetadata m = .Value bw (some m) v := rfl

@[simp] theorem withMetadata_Identifier (bw : Nat) (md : Option UMetadata)
    (id : String) (m : UMetadata) :
    (UExpr.Identifier bw md id).withMetadata m = .Identifier bw (some m) id := rfl

@[simp] theorem withMetadata_Add (bw : Nat) (md : Option UMetadata) (l r : UExpr)
    (m : UMetadata) : (UExpr.Add bw md l r).withMetadata m = .Add bw (some m) l r := rfl

@[simp] theorem withMetadata_Sub (bw : Nat) (md : Option UMetadata) (l r : UExpr)
    (m : UMetadata) : (UExpr.Sub bw md l r).withMetadata m = .Sub bw (some m) l r := rfl

@[simp] theorem withMetadata_Xor (bw : Nat) (md : Option UMetadata) (l r : UExpr)
    (m : UMetadata) : (UExpr.Xor bw md l r).withMetadata m = .Xor bw (some m) l r := rfl

@[simp] theorem withMetadata_And (bw : Nat) (md : Option UMetadata) (l r : UExpr)
    (m : UMetadata) : (UExpr.And bw md l r).withMetadata m = .And bw (some m) l r := rfl

@[simp] theorem withMetadata_Or (bw : Nat) (md : Option UMetadata) (l r : UExpr)
    (m : UMetadata) : (UExpr.Or bw md l r).withMetadata m = .Or bw (some m) l r := rfl

@[simp] theorem withMetadata_Mult (bw : Nat) (md : Option UMetadata) (l r : UExpr)
    (m : UMetadata) : (UExpr.Mult bw md l r).withMetadata m = .Mult bw (some m) l r := rfl

@[simp] theorem withMetadata_Not (bw : Nat) (md : Option UMetadata) (e : UExpr)
    (m : UMetadata) : (UExpr.Not bw md e).withMetadata m = .Not bw (some m) e := rfl

@[simp] theorem withMetadata_LeftShift (bw : Nat) (md : Option UMetadata)
    (e : UExpr) (b : FieldExpr) (m : UMetadata) :
    (UExpr.LeftShift bw md e b).withMetadata m = .LeftShift bw (some m) e b := rfl

@[simp] theorem withMetadata_RightShift (bw : Nat) (md : Option UMetadata)
    (e : UExpr) (b : FieldExpr) (m : UMetadata) :
    (UExpr.RightShift bw md e b).withMetadata m = .RightShift bw (some m) e b := rfl

@[simp] theorem withMetadata_IfElse (bw : Nat) (md : Option UMetadata)
    (c : BoolExpr) (x y : UExpr) (m : UMetadata) :
    (UExpr.IfElse bw md c x y).withMetadata m = .IfElse bw (some m) c x y := rfl

/-- `force_reduce` on an expression with known metadata. -/
theorem force_reduce_eq (e : UExpr) (m : UMetadata) (h : e.metadata = some m) :
    force_reduce e = some (e.withMetadata ⟨m.max, some true⟩) := by
  simp [force_reduce, h]

/-- `force_no_reduce` on an expression with known metadata. -/
theorem force_no_reduce_eq (e : UExpr) (m : UMetadata) (h : e.metadata = some m) :
    force_no_reduce e = some (e.withMetadata ⟨m.max, some false⟩) := by
  simp [force_no_reduce, h]

/-- Setting metadata does not change a node's bitwidth. -/
@[simp] theorem bitwidth_withMetadata (e : UExpr) (m : UMetadata) :
    (e.withMetadata m).bitwidth = e.bitwidth := by
  cases e <;> rfl

/-- Setting metadata sets exactly the metadata field. -/
@[simp] theorem metadata_withMetadata (e : UExpr) (m : UMetadata) :
    (e.withMetadata m).metadata = some m := by
  cases e <;> rfl

/-- Behaviour of `fold_uint_expression` on an unresolved `Add` node with
resolvable children: the escalation chain decides the reduction flags and
the resulting maximum. -/
theorem fold_add_eq (rb : Nat) (ids : Ids) (w : Nat) (l r l2 r2 : UExpr)
    (lm rm : UMetadata)
    (hw : w < (rb - 1) / 2)
    (hl : fold_uint_expression rb ids l = some l2)
    (hr : fold_uint_expression rb ids r = some r2)
    (hlm : l2.metadata = some lm) (hrm : r2.metadata = some rm) :
    fold_uint_expression rb ids (UExpr.Add w none l r) =
      some (UExpr.Add l2.bitwidth
        (some ⟨(addStep rb (2 ^ w - 1) lm.max rm.max).2.2, some false⟩)
        (applyReduce (addStep rb (2 ^ w - 1) lm.max rm.max).1 lm l2)
        (applyReduce (addStep rb (2 ^ w - 1) lm.max rm.max).2.1 rm r2)) := by
  rw [fold_uint_expression]
  rcases hsl : (addStep rb (2 ^ w - 1) lm.max rm.max).1 with _ | _ <;>
  rcases hsr : (addStep rb (2 ^ w - 1) lm.max rm.max).2.1 with _ | _ <;>
    simp [hw, hl, hr, hlm, hrm, hsl, hsr,
      force_reduce_eq _ _ hlm, force_reduce_eq _ _ hrm, applyReduce, UExpr.add]

/-- Behaviour of `fold_uint_expression` on an unresolved `Sub` node with
resolvable children: offsets are computed from the right operand's bound
bitwidth and the node's width, then the escalation chain decides. -/
theorem fold_sub_eq (rb : Nat) (ids : Ids) (w : Nat) (l r l2 r2 : UExpr)
    (lm rm : UMetadata)
    (hw : w < (rb - 1) / 2)
    (hl : fold_uint_expression rb ids l = some l2)
    (hr : fold_uint_expression rb ids r = some r2)
    (hlm : l2.metadata = some lm) (hrm : r2.metadata = some rm) :
    fold_uint_expression rb ids (UExpr.Sub w none l r) =
      some (UExpr.Sub l2.bitwidth
        (some ⟨(subStep rb (2 ^ w - 1) (2 ^ Nat.max rm.bitwidth w) (2 ^ w) lm.max).2.2,
          some false⟩)
        (applyReduce (subStep rb (2 ^ w - 1) (2 ^ Nat.max rm.bitwidth w) (2 ^ w) lm.max).1 lm l2)
        (applyReduce (subStep rb (2 ^ w - 1) (2 ^ Nat.max rm.bitwidth w) (2 ^ w) lm.max).2.1 rm r2)) := by
  rw [fold_uint_expression]
  rcases hsl : (subStep rb (2 ^ w - 1) (2 ^ Nat.max rm.bitwidth w) (2 ^ w) lm.max).1 with _ | _ <;>
  rcases hsr : (subStep rb (2 ^ w - 1) (2 ^ Nat.max rm.bitwidth w) (2 ^ w) lm.max).2.1 with _ | _ <;>
    simp [hw, hl, hr, hlm, hrm, hsl, hsr,
      force_reduce_eq _ _ hlm, force_reduce_eq _ _ hrm, applyReduce, UExpr.sub]

/-- Behaviour of `fold_uint_expression` on an unresolved `Mult` node with
resolvable children. -/
theorem fold_mult_eq (rb : Nat) (ids : Ids) (w : Nat) (l r l2 r2 : UExpr)
    (lm rm : UMetadata)
    (hw : w < (rb - 1) / 2)
    (hl : fold_uint_expression rb ids l = some l2)
    (hr : fold_uint_expression rb ids r = some r2)
    (hlm : l2.metadata = some lm) (hrm : r2.metadata = some rm) :
    fold_uint_expression rb ids (UExpr.Mult w none l r) =
      some (UExpr.Mult l2.bitwidth
        (some ⟨(multStep rb (2 ^ w - 1) lm.max rm.max).2.2, some false⟩)
        (applyReduce (multStep rb (2 ^ w - 1) lm.max rm.max).1 lm l2)
        (applyReduce (multStep rb (2 ^ w - 1) lm.max rm.max).2.1 rm r2)) := by
  rw [fold_uint_expression]
  rcases hsl : (multStep rb (2 ^ w - 1) lm.max rm.max).1 with _ | _ <;>
  rcases hsr : (multStep rb (2 ^ w - 1) lm.max rm.max).2.1 with _ | _ <;>
    simp [hw, hl, hr, hlm, hrm, hsl, hsr,
      force_reduce_eq _ _ hlm, force_reduce_eq _ _ hrm, applyReduce, UExpr.mult]

/-- A successful checked addition returns exactly the sum. -/
theorem checked_add_some (rb a b s : Nat) (h : checked_add rb a b = some s) :
    s = a + b := by
  by_cases hc : a + b ≤ ceiling rb
  · simp [checked_add, hc] at h
    omega
  · simp [checked_add, hc] at h

/-- The source-transcribed `Add` escalation chain is exactly "first
fitting candidate, in the fixed order, else the unconditional fallback". -/
theorem addStep_firstFit (rb R a b : Nat) :
    addStep rb R a b = firstFit (addCandidates rb R a b) (true, true, R + R) := by
  cases h1 : checked_add rb a b <;> cases h2 : checked_add rb R b <;>
    cases h3 : checked_add rb a R <;>
      simp [addStep, addCandidates, firstFit, h1, h2, h3]

/-- Same for the `Sub` escalation chain. -/
theorem subStep_firstFit (rb R off toff a : Nat) :
    subStep rb R off toff a =
      firstFit (subCandidates rb R off toff a) (true, true, R + toff) := by
  cases h1 : checked_add rb a off <;> cases h2 : checked_add rb R off <;>
    cases h3 : checked_add rb a toff <;>
      simp [subStep, subCandidates, firstFit, h1, h2, h3]

/-- Same for the `Mult` escalation chain. -/
theorem multStep_firstFit (rb R a b : Nat) :
    multStep rb R a b = firstFit (multCandidates rb R a b) (true, true, R * R) := by
  cases h1 : checked_mul rb a b <;> cases h2 : checked_mul rb R b <;>
    cases h3 : checked_mul rb a R <;>
      simp [multStep, multCandidates, firstFit, h1, h2, h3]

/-- C1: for every `Add` node at width `w` whose two children resolve to
metadata with maxima `a` and `b` such that the checked addition `a + b`
succeeds, `fold_uint_expression` returns an `Add` node whose metadata has
`max = a + b` and `should_reduce = Some(false)`, with neither operand
force-reduced. -/
theorem add_exact_bound (rb : Nat) (ids : Ids) (w : Nat) (l r l2 r2 : UExpr)
    (lm rm : UMetadata)
    (hw : w < (rb - 1) / 2)
    (hl : fold_uint_expression rb ids l = some l2)
    (hr : fold_uint_expression rb ids r = some r2)
    (hlm : l2.metadata = some lm) (hrm : r2.metadata = some rm)
    (hadd : (checked_add rb lm.max rm.max).isSome = true) :
    fold_uint_expression rb ids (UExpr.Add w none l r) =
      some (UExpr.Add l2.bitwidth (some ⟨lm.max + rm.max, some false⟩) l2 r2) := by
  obtain ⟨s, hs⟩ := Option.isSome_iff_exists.mp hadd
  have hsum := checked_add_some rb _ _ _ hs
  have hstep : addStep rb (2 ^ w - 1) lm.max rm.max = (false, false, lm.max + rm.max) := by
    simp [addStep, hs, hsum]
  rw [fold_add_eq rb ids w l r l2 r2 lm rm hw hl hr hlm hrm, hstep]
  simp [applyReduce]

/-- Witness for C1: width 32, operand maxima 42 and 33, result max 75. -/
theorem add_exact_bound_witness :
    fold_uint_expression 254 []
      (UExpr.Add 32 none (UExpr.Identifier 32 (some ⟨42, none⟩) "a")
        (UExpr.Identifier 32 (some ⟨33, none⟩) "b")) =
      some (UExpr.Add 32 (some ⟨75, some false⟩)
        (UExpr.Identifier 32 (some ⟨42, none⟩) "a")
        (UExpr.Identifier 32 (some ⟨33, none⟩) "b")) :=
  add_exact_bound 254 [] 32
    (UExpr.Identifier 32 (some ⟨42, none⟩) "a") (UExpr.Identifier 32 (some ⟨33, none⟩) "b")
    (UExpr.Identifier 32 (some ⟨42, none⟩) "a") (UExpr.Identifier 32 (some ⟨33, none⟩) "b")
    ⟨42, none⟩ ⟨33, none⟩
    (by decide) (by decide) (by decide) rfl rfl (by decide)

/-- C2: for every `Sub` node at width `w`, the offset is
`2^max(bitsNeeded(rightMax), w)`; when the checked addition
`leftMax + offset` succeeds the node's metadata gets
`max = leftMax + offset` with no forced reductions. -/
theorem sub_offset_bound (rb : Nat) (ids : Ids) (w : Nat) (l r l2 r2 : UExpr)
    (lm rm : UMetadata)
    (hw : w < (rb - 1) / 2)
    (hl : fold_uint_expression rb ids l = some l2)
    (hr : fold_uint_expression rb ids r = some r2)
    (hlm : l2.metadata = some lm) (hrm : r2.metadata = some rm)
    (hadd : (checked_add rb lm.max (2 ^ Nat.max rm.bitwidth w)).isSome = true) :
    fold_uint_expression rb ids (UExpr.Sub w none l r) =
      some (UExpr.Sub l2.bitwidth
        (some ⟨lm.max + 2 ^ Nat.max rm.bitwidth w, some false⟩) l2 r2) := by
  obtain ⟨s, hs⟩ := Option.isSome_iff_exists.mp hadd
  have hsum := checked_add_some rb _ _ _ hs
  have hstep : subStep rb (2 ^ w - 1) (2 ^ Nat.max rm.bitwidth w) (2 ^ w) lm.max =
      (false, false, lm.max + 2 ^ Nat.max rm.bitwidth w) := by
    simp [subStep, hs, hsum]
  rw [fold_sub_eq rb ids w l r l2 r2 lm rm hw hl hr hlm hrm, hstep]
  simp [applyReduce]

/-- Witness for C2: width 32, operand maxima 42 and 33, result max
`2^32 + 42` (the offset scheme, not a naive subtraction bound). -/
theorem sub_offset_bound_witness :
    fold_uint_expression 254 []
      (UExpr.Sub 32 none (UExpr.Identifier 32 (some ⟨42, none⟩) "a")
        (UExpr.Identifier 32 (some ⟨33, none⟩) "b")) =
      some (UExpr.Sub 32 (some ⟨2 ^ 32 + 42, some false⟩)
        (UExpr.Identifier 32 (some ⟨42, none⟩) "a")
        (UExpr.Identifier 32 (some ⟨33, none⟩) "b")) :=
  sub_offset_bound 254 [] 32
    (UExpr.Identifier 32 (some ⟨42, none⟩) "a") (UExpr.Identifier 32 (some ⟨33, none⟩) "b")
    (UExpr.Identifier 32 (some ⟨42, none⟩) "a") (UExpr.Identifier 32 (some ⟨33, none⟩) "b")
    ⟨42, none⟩ ⟨33, none⟩
    (by decide) (by decide) (by decide) rfl rfl (by decide)

/-- C3: on `Add`, `Sub` and `Mult` nodes the escalation tries exactly the
four combinations — reduce neither, reduce left only, reduce right only,
reduce both — in that fixed order, stops at the first whose checked
combination of bounds succeeds, and the folded node carries that
combination's forced-reduction flags and resulting max. -/
theorem escalation_order_fixed (rb : Nat) (ids : Ids) (w : Nat) (l r l2 r2 : UExpr)
    (lm rm : UMetadata)
    (hw : w < (rb - 1) / 2)
    (hl : fold_uint_expression rb ids l = some l2)
    (hr : fold_uint_expression rb ids r = some r2)
    (hlm : l2.metadata = some lm) (hrm : r2.metadata = some rm) :
    (fold_uint_expression rb ids (UExpr.Add w none l r) =
      some (UExpr.Add l2.bitwidth
        (some ⟨(firstFit (addCandidates rb (2 ^ w - 1) lm.max rm.max)
          (true, true, (2 ^ w - 1) + (2 ^ w - 1))).2.2, some false⟩)
        (applyReduce (firstFit (addCandidates rb (2 ^ w - 1) lm.max rm.max)
          (true, true, (2 ^ w - 1) + (2 ^ w - 1))).1 lm l2)
        (applyReduce (firstFit (addCandidates rb (2 ^ w - 1) lm.max rm.max)
          (true, true, (2 ^ w - 1) + (2 ^ w - 1))).2.1 rm r2))) ∧
    (fold_uint_expression rb ids (UExpr.Sub w none l r) =
      some (UExpr.Sub l2.bitwidth
        (some ⟨(firstFit (subCandidates rb (2 ^ w - 1) (2 ^ Nat.max rm.bitwidth w) (2 ^ w) lm.max)
          (true, true, (2 ^ w - 1) + 2 ^ w)).2.2, some false⟩)
        (applyReduce (firstFit (subCandidates rb (2 ^ w - 1) (2 ^ Nat.max rm.bitwidth w) (2 ^ w) lm.max)
          (true, true, (2 ^ w - 1) + 2 ^ w)).1 lm l2)
        (applyReduce (firstFit (subCandidates rb (2 ^ w - 1) (2 ^ Nat.max rm.bitwidth w) (2 ^ w) lm.max)
          (true, true, (2 ^ w - 1) + 2 ^ w)).2.1 rm r2))) ∧
    (fold_uint_expression rb ids (UExpr.Mult w none l r) =
      some (UExpr.Mult l2.bitwidth
        (some ⟨(firstFit (multCandidates rb (2 ^ w - 1) lm.max rm.max)
          (true, true, (2 ^ w - 1) * (2 ^ w - 1))).2.2, some false⟩)
        (applyReduce (firstFit (multCandidates rb (2 ^ w - 1) lm.max rm.max)
          (true, true, (2 ^ w - 1) * (2 ^ w - 1))).1 lm l2)
        (applyReduce (firstFit (multCandidates rb (2 ^ w - 1) lm.max rm.max)
          (true, true, (2 ^ w - 1) * (2 ^ w - 1))).2.1 rm r2))) := by
  refine ⟨?_, ?_, ?_⟩
  · rw [fold_add_eq rb ids w l r l2 r2 lm rm hw hl hr hlm hrm, addStep_firstFit]
  · rw [fold_sub_eq rb ids w l r l2 r2 lm rm hw hl hr hlm hrm, subStep_firstFit]
  · rw [fold_mult_eq rb ids w l r l2 r2 lm rm hw hl hr hlm hrm, multStep_firstFit]

/-- Witness for C3 at width 32 with maxima `2^253 - 1` and 42: the first
attempt overflows the ceiling, the second fits, so exactly the left operand
is force-reduced in all three node kinds. -/
theorem escalation_order_fixed_witness :
    (fold_uint_expression 254 []
      (UExpr.Add 32 none (UExpr.Identifier 32 (some ⟨2 ^ 253 - 1, none⟩) "a")
        (UExpr.Identifier 32 (some ⟨42, none⟩) "b")) =
      some (UExpr.Add 32 (some ⟨2 ^ 32 + 41, some false⟩)
        (UExpr.Identifier 32 (some ⟨2 ^ 253 - 1, some true⟩) "a")
        (UExpr.Identifier 32 (some ⟨42, none⟩) "b"))) ∧
    (fold_uint_expression 254 []
      (UExpr.Sub 32 none (UExpr.Identifier 32 (some ⟨2 ^ 253 - 1, none⟩) "a")
        (UExpr.Identifier 32 (some ⟨42, none⟩) "b")) =
      some (UExpr.Sub 32 (some ⟨2 ^ 33 - 1, some false⟩)
        (UExpr.Identifier 32 (some ⟨2 ^ 253 - 1, some true⟩) "a")
        (UExpr.Identifier 32 (some ⟨42, none⟩) "b"))) ∧
    (fold_uint_expression 254 []
      (UExpr.Mult 32 none (UExpr.Identifier 32 (some ⟨2 ^ 253 - 1, none⟩) "a")
        (UExpr.Identifier 32 (some ⟨42, none⟩) "b")) =
      some (UExpr.Mult 32 (some ⟨(2 ^ 32 - 1) * 42, some false⟩)
        (UExpr.Identifier 32 (some ⟨2 ^ 253 - 1, some true⟩) "a")
        (UExpr.Identifier 32 (some ⟨42, none⟩) "b"))) :=
  escalation_order_fixed 254 [] 32
    (UExpr.Identifier 32 (some ⟨2 ^ 253 - 1, none⟩) "a")
    (UExpr.Identifier 32 (some ⟨42, none⟩) "b")
    (UExpr.Identifier 32 (some ⟨2 ^ 253 - 1, none⟩) "a")
    (UExpr.Identifier 32 (some ⟨42, none⟩) "b")
    ⟨2 ^ 253 - 1, none⟩ ⟨42, none⟩
    (by decide) (by decide) (by decide) rfl rfl

/-- C5: `fold_uint_expression` is memoized — an expression that already
carries metadata is returned unchanged, with no re-derivation and no
metadata overwrite. -/
theorem fold_memoized (rb : Nat) (ids : Ids) (e : UExpr) (m : UMetadata)
    (h : e.metadata = some m) :
    fold_uint_expression rb ids e = some e := by
  rw [fold_uint_expression]
  simp [h]

/-- Witness for C5: a value node with pre-set metadata comes back as-is. -/
theorem fold_memoized_witness :
    fold_uint_expression 254 [] (UExpr.Value 32 (some ⟨7, some false⟩) 7) =
      some (UExpr.Value 32 (some ⟨7, some false⟩) 7) :=
  fold_memoized 254 [] _ ⟨7, some false⟩ rfl

/-- C6 counterexample: at `required_bits = 254` the claim's precondition
"bit-width strictly less than half of required_bits" holds for width 126
(`126 < 127`), yet the pass panics there, because the code actually asserts
`width < (required_bits - 1) / 2 = 126`. -/
theorem width_assert_cex :
    126 < 254 / 2 ∧ fold_uint_expression 254 [] (UExpr.Value 126 none 0) = none :=
  ⟨by decide, by decide⟩

/-- C6 amended: for every unresolved node the pass asserts that the node's
bit-width is strictly less than `(required_bits - 1) / 2` (integer
division); a violation is fatal (panic, modelled as `none`), not a
recoverable condition. -/
theorem width_assert_amended (rb : Nat) (ids : Ids) (e : UExpr)
    (hmeta : e.metadata = none)
    (hw : ¬ e.bitwidth < (rb - 1) / 2) :
    fold_uint_expression rb ids e = none := by
  rw [fold_uint_expression]
  simp [hmeta, hw]

/-- Witness for the amended C6 at width 200 over a 254-bit field. -/
theorem width_assert_amended_witness :
    fold_uint_expression 254 [] (UExpr.Value 200 none 0) = none :=
  width_assert_amended 254 [] _ rfl (by decide)

/-- C8 counterexample: a `Block` statement is not rendered as empty text by
the SMT-LIB2 exporter — it hits `unreachable!()` (a panic, modelled as
`none`). -/
theorem smtlib2_empty_cex : statement_to_smtlib2 (.Block []) ≠ some "" := by decide

/-- C8 amended: `Directive` and `Log` statements are rendered as empty
text; `Block` statements are unreachable and panic instead of rendering. -/
theorem smtlib2_non_constraint_amended :
    (∀ d : DirectiveData, statement_to_smtlib2 (.Directive d) = some "") ∧
    (∀ lg : LogData, statement_to_smtlib2 (.Log lg) = some "") ∧
    (∀ sts : List IrStatement, statement_to_smtlib2 (.Block sts) = none) :=
  ⟨fun _ => rfl, fun _ => rfl, fun _ => rfl⟩

/-- C4 counterexample: an expression arriving with metadata whose
pending-reduction flag is still unset (`None`) is returned unchanged by the
memoization short-circuit, so the returned flag is `None`, not
`Some(true)`/`Some(false)`. -/
theorem propagator_flag_unset_cex :
    fold_uint_expression 254 [] (UExpr.Identifier 32 (some ⟨5, none⟩) "foo") =
      some (UExpr.Identifier 32 (some ⟨5, none⟩) "foo") ∧
    flagResolved (UExpr.Identifier 32 (some ⟨5, none⟩) "foo") = false :=
  ⟨by decide, by decide⟩

/-- C4 amended: for every expression whose metadata is not yet set, folded
under a variable table all of whose entries carry a resolved flag, the
returned expression's metadata has `should_reduce` resolved to `Some(true)`
or `Some(false)`. -/
theorem propagator_resolves_flag (rb : Nat) (ids : Ids) (e e2 : UExpr)
    (htab : ∀ v m, lookupId ids v = some m → m.should_reduce.isSome = true)
    (hmeta : e.metadata = none)
    (hres : fold_uint_expression rb ids e = some e2) :
    flagResolved e2 = true := by
  rw [fold_uint_expression, hmeta] at hres
  by_cases hw : e.bitwidth < (rb - 1) / 2
  case neg => simp [hw] at hres
  case pos =>
    cases e with
    | Value bw md v =>
      simp only [bitwidth_Value] at hw
      simp only [Option.isSome_none, Bool.false_eq_true, if_false, bitwidth_Value, hw,
        if_true, Option.bind_eq_bind', Option.some_bind', metadata_withMetadata,
        Option.isSome_some, Option.some.injEq] at hres
      subst hres
      simp [flagResolved]
    | Identifier bw md id =>
      simp only [bitwidth_Identifier] at hw
      simp only [Option.isSome_none, Bool.false_eq_true, if_false, bitwidth_Identifier, hw,
        if_true, Option.bind_eq_bind', Option.bind_eq_some', Option.map_eq_some',
        metadata_Identifier, Option.isSome_some, Option.some.injEq] at hres
      obtain ⟨res, ⟨m, hm, hid⟩, he2⟩ := hres
      subst hid
      simp only [metadata_Identifier, Option.isSome_some, if_true, Option.some.injEq] at he2
      subst he2
      simpa [flagResolved] using htab _ _ hm
    | Add bw md l r =>
      simp only [bitwidth_Add] at hw
      simp only [Option.isSome_none, Bool.false_eq_true, if_false, bitwidth_Add, hw,
        if_true, Option.bind_eq_bind', Option.bind_eq_some', Option.some.injEq,
        exists_eq_left, exists_eq_left'] at hres
      obtain ⟨a, ha, b, hb, am, ham, bm, hbm, he2⟩ := hres
      rcases hf1 : (addStep rb (2 ^ bw - 1) am.max bm.max).1 with _ | _ <;>
      rcases hf2 : (addStep rb (2 ^ bw - 1) am.max bm.max).2.1 with _ | _ <;>
        simp only [hf1, hf2, Bool.false_eq_true, if_false, if_true,
          force_reduce_eq _ _ ham, force_reduce_eq _ _ hbm,
          Option.bind_eq_some', Option.some.injEq, exists_eq_left, exists_eq_left',
          metadata_withMetadata, Option.isSome_some] at he2 <;>
        (subst he2; simp [flagResolved])
    | Sub bw md l r =>
      simp only [bitwidth_Sub] at hw
      simp only [Option.isSome_none, Bool.false_eq_true, if_false, bitwidth_Sub, hw,
        if_true, Option.bind_eq_bind', Option.bind_eq_some', Option.some.injEq,
        exists_eq_left, exists_eq_left'] at hres
      obtain ⟨a, ha, b, hb, am, ham, bm, hbm, he2⟩ := hres
      rcases hf1 : (subStep rb (2 ^ bw - 1) (2 ^ bm.bitwidth.max bw) (2 ^ bw) am.max).1 with _ | _ <;>
      rcases hf2 : (subStep rb (2 ^ bw - 1) (2 ^ bm.bitwidth.max bw) (2 ^ bw) am.max).2.1 with _ | _ <;>
        simp only [hf1, hf2, Bool.false_eq_true, if_false, if_true,
          force_reduce_eq _ _ ham, force_reduce_eq _ _ hbm,
          Option.bind_eq_some', Option.some.injEq, exists_eq_left, exists_eq_left',
          metadata_withMetadata, Option.isSome_some] at he2 <;>
        (subst he2; simp [flagResolved])
    | Mult bw md l r =>
      simp only [bitwidth_Mult] at hw
      simp only [Option.isSome_none, Bool.false_eq_true, if_false, bitwidth_Mult, hw,
        if_true, Option.bind_eq_bind', Option.bind_eq_some', Option.some.injEq,
        exists_eq_left, exists_eq_left'] at hres
      obtain ⟨a, ha, b, hb, am, ham, bm, hbm, he2⟩ := hres
      rcases hf1 : (multStep rb (2 ^ bw - 1) am.max bm.max).1 with _ | _ <;>
      rcases hf2 : (multStep rb (2 ^ bw - 1) am.max bm.max).2.1 with _ | _ <;>
        simp only [hf1, hf2, Bool.false_eq_true, if_false, if_true,
          force_reduce_eq _ _ ham, force_reduce_eq _ _ hbm,
          Option.bind_eq_some', Option.some.injEq, exists_eq_left, exists_eq_left',
          metadata_withMetadata, Option.isSome_some] at he2 <;>
        (subst he2; simp [flagResolved])
    | Xor bw md l r =>
      simp only [bitwidth_Xor] at hw
      simp only [Option.isSome_none, Bool.false_eq_true, if_false, bitwidth_Xor, hw,
        if_true, Option.bind_eq_bind', Option.bind_eq_some', Option.some.injEq,
        exists_eq_left, exists_eq_left', metadata_withMetadata, Option.isSome_some] at hres
      obtain ⟨a, ha, b, hb, lft, hlft, rgt, hrgt, he2⟩ := hres
      subst he2
      simp [flagResolved]
    | And bw md l r =>
      simp only [bitwidth_And] at hw
      simp only [Option.isSome_none, Bool.false_eq_true, if_false, bitwidth_And, hw,
        if_true, Option.bind_eq_bind', Option.bind_eq_some', Option.some.injEq,
        exists_eq_left, exists_eq_left', metadata_withMetadata, Option.isSome_some] at hres
      obtain ⟨a, ha, b, hb, lft, hlft, rgt, hrgt, he2⟩ := hres
      subst he2
      simp [flagResolved]
    | Or bw md l r =>
      simp only [bitwidth_Or] at hw
      simp only [Option.isSome_none, Bool.false_eq_true, if_false, bitwidth_Or, hw,
        if_true, Option.bind_eq_bind', Option.bind_eq_some', Option.some.injEq,
        exists_eq_left, exists_eq_left', metadata_withMetadata, Option.isSome_some] at hres
      obtain ⟨a, ha, b, hb, lft, hlft, rgt, hrgt, he2⟩ := hres
      subst he2
      simp [flagResolved]
    | Not bw md e1 =>
      simp only [bitwidth_Not] at hw
      simp only [Option.isSome_none, Bool.false_eq_true, if_false, bitwidth_Not, hw,
        if_true, Option.bind_eq_bind', Option.bind_eq_some', Option.some.injEq,
        exists_eq_left, exists_eq_left', metadata_withMetadata, Option.isSome_some] at hres
      obtain ⟨a, ha, a2, ha2, he2⟩ := hres
      subst he2
      simp [flagResolved]
    | LeftShift bw md e1 b =>
      simp only [bitwidth_LeftShift] at hw
      simp only [Option.isSome_none, Bool.false_eq_true, if_false, bitwidth_LeftShift, hw,
        if_true, Option.bind_eq_bind', Option.bind_eq_some', Option.some.injEq,
        exists_eq_left, exists_eq_left', metadata_withMetadata, Option.isSome_some] at hres
      obtain ⟨a, ha, a2, ha2, he2⟩ := hres
      subst he2
      simp [flagResolved]
    | RightShift bw md e1 b =>
      simp only [bitwidth_RightShift] at hw
      simp only [Option.isSome_none, Bool.false_eq_true, if_false, bitwidth_RightShift, hw,
        if_true, Option.bind_eq_bind', Option.bind_eq_some', Option.some.injEq,
        exists_eq_left, exists_eq_left', metadata_withMetadata, Option.isSome_some] at hres
      obtain ⟨a, ha, a2, ha2, he2⟩ := hres
      subst he2
      simp [flagResolved]
    | IfElse bw md c x y =>
      simp only [bitwidth_IfElse] at hw
      simp only [Option.isSome_none, Bool.false_eq_true, if_false, bitwidth_IfElse, hw,
        if_true, Option.bind_eq_bind', Option.bind_eq_some', Option.some.injEq,
        exists_eq_left, exists_eq_left', metadata_withMetadata, Option.isSome_some] at hres
      obtain ⟨a, ha, b, hb, am, ham, bm, hbm, he2⟩ := hres
      subst he2
      simp [flagResolved]

/-- Witness for the amended C4: folding a fresh literal resolves its flag. -/
theorem propagator_resolves_flag_witness :
    flagResolved (UExpr.Value 32 (some ⟨7, some false⟩) 7) = true :=
  propagator_resolves_flag 254 [] (UExpr.Value 32 none 7)
    (UExpr.Value 32 (some ⟨7, some false⟩) 7)
    (fun v m h => by simp [lookupId] at h) rfl (by decide)

/-- The mapped closure of the `Return` branch makes every uint expression
of the list carry `should_reduce = Some(true)`. -/
theorem foldReturnList_all (rb : Nat) (ids : Ids) :
    ∀ (es es2 : List ZirExpr), foldReturnList rb ids es = some es2 →
      es2.all returnCanonical = true := by
  intro es
  induction es with
  | nil =>
    intro es2 h
    rw [foldReturnList] at h
    simp only [Option.some.injEq] at h
    subst h
    rfl
  | cons e rest ih =>
    intro es2 h
    cases e with
    | Uint u =>
      simp only [foldReturnList, Option.bind_eq_bind', Option.bind_eq_some',
        Option.some.injEq] at h
      obtain ⟨u2, hu2, m, hm, e2, he2, rest2, hrest2, hout⟩ := h
      subst he2
      subst hout
      simp only [List.all_cons, Bool.and_eq_true]
      exact ⟨by simp [returnCanonical], ih rest2 hrest2⟩
    | Boolean b =>
      simp only [foldReturnList, fold_expression, Option.bind_eq_bind', Option.some_bind',
        Option.bind_eq_some', Option.some.injEq] at h
      obtain ⟨rest2, hrest2, hout⟩ := h
      subst hout
      simp only [List.all_cons, Bool.and_eq_true]
      exact ⟨rfl, ih rest2 hrest2⟩
    | FieldElement f =>
      simp only [foldReturnList, fold_expression, Option.bind_eq_bind', Option.some_bind',
        Option.bind_eq_some', Option.some.injEq] at h
      obtain ⟨rest2, hrest2, hout⟩ := h
      subst hout
      simp only [List.all_cons, Bool.and_eq_true]
      exact ⟨rfl, ih rest2 hrest2⟩

/-- C7: after `fold_statement` processes a `Return` statement, every
unsigned-integer expression in its result list carries
`should_reduce = Some(true)`. -/
theorem return_forces_reduced (rb : Nat) (ids ids2 : Ids) (es : List ZirExpr)
    (out : List ZirStatement)
    (h : fold_statement rb ids (.Return es) = some (ids2, out)) :
    out.all stmtReturnCanonical = true := by
  rw [fold_statement] at h
  simp only [Option.bind_eq_bind', Option.bind_eq_some', Option.some.injEq,
    Prod.mk.injEq] at h
  obtain ⟨es2, hes2, hids, hout⟩ := h
  subst hout
  simp [stmtReturnCanonical, foldReturnList_all rb ids es es2 hes2]

/-- Witness for C7: a variable defined with `should_reduce = Some(false)`
in the table is forced to `Some(true)` when returned. -/
theorem return_forces_reduced_witness :
    ([ZirStatement.Return
        [ZirExpr.Uint (UExpr.Identifier 32 (some ⟨5, some true⟩) "x")]].all
      stmtReturnCanonical) = true :=
  return_forces_reduced 254 [(⟨"x", .Uint 32⟩, ⟨5, some false⟩)]
    [(⟨"x", .Uint 32⟩, ⟨5, some false⟩)]
    [ZirExpr.Uint (UExpr.Identifier 32 none "x")]
    [ZirStatement.Return [ZirExpr.Uint (UExpr.Identifier 32 (some ⟨5, some true⟩) "x")]]
    (by decide)

/-- C9: after `insert("x", "v")`, `get("x_b3")` reattaches the suffix via
the marker (`Some("v_b3")`), `get("x")` returns `Some("v")` verbatim, and
`get` of any key whose stripped prefix was never inserted returns `None`. -/
theorem substitution_roundtrip :
    ((Substitution.new.insert "x" "v").get "x_b3" = some "v_b3") ∧
    ((Substitution.new.insert "x" "v").get "x" = some "v") ∧
    ∀ k : String, (split_key k).1 ≠ "x" →
      (Substitution.new.insert "x" "v").get k = none := by
  refine ⟨by decide, by decide, fun k hk => ?_⟩
  rcases hsk : split_key k with ⟨p, suf⟩
  rw [hsk] at hk
  simp only at hk
  have hxk : (split_key "x").1 = "x" := by decide
  have hxp : ("x" : String) ≠ p := fun h => hk h.symm
  simp [Substitution.get, Substitution.insert, Substitution.new, hsk, hmGet, hxk, hxp]

/-- Witness for C9's absence clause at the unrelated key `"zz"`. -/
theorem substitution_roundtrip_witness :
    (split_key "zz").1 ≠ "x" ∧
    (Substitution.new.insert "x" "v").get "zz" = none :=
  ⟨by decide, substitution_roundtrip.2.2 "zz" (by decide)⟩

/-- C10: `split_key` keeps only the first two `"_b"`-separated segments —
for any key splitting into at least three segments, `insert` stores under
the first segment only, and `get` of the same key returns the stored value
with only the first suffix segment reattached, discarding all later
segments (a base name containing the marker is likewise truncated). -/
theorem split_key_truncates (k v p0 p1 : String) (rest : List String)
    (h : keyParts k = p0 :: p1 :: rest) :
    (Substitution.new.insert k v).hashmap = [(p0, v)] ∧
    (Substitution.new.insert k v).get k = some (v ++ "_b" ++ p1) := by
  rcases hsp : splitSep k.data with _ | ⟨a, _ | ⟨b, cs⟩⟩
  · simp [keyParts, hsp] at h
  · simp [keyParts, hsp] at h
  · simp only [keyParts, hsp, List.map_cons, List.cons.injEq] at h
    obtain ⟨h0, h1, hrest⟩ := h
    have hsk : split_key k = (p0, some p1) := by
      simp [split_key, hsp, h0, h1]
    constructor
    · simp [Substitution.insert, Substitution.new, hsk]
    · simp [Substitution.get, Substitution.insert, Substitution.new, hsk, hmGet,
        BINARY_SEPARATOR]

/-- Witness for C10 at the key `"x_b1_b2"`: stored under `"x"`, retrieved
as `"v_b1"`, the trailing `"_b2"` silently discarded. -/
theorem split_key_truncates_witness :
    keyParts "x_b1_b2" = ["x", "1", "2"] ∧
    (Substitution.new.insert "x_b1_b2" "v").hashmap = [("x", "v")] ∧
    (Substitution.new.insert "x_b1_b2" "v").get "x_b1_b2" = some "v_b1" :=
  ⟨by decide, split_key_truncates "x_b1_b2" "v" "x" "1" ["2"] (by decide)⟩
